import Mathlib

/-!
Verification of the moltr learning-to-rank gradient library.

Shallow embedding of the sources:
- the stable descending argsort utility (C++, `std::stable_sort` over
  (index, value) pairs with comparator `a.value > b.value`);
- the sigmoid lookup and the pairwise lambda-gradient kernel
  (`moltr/lambdaobj.pyx`);
- the notebook's objective callbacks (`lambdamart_objective`,
  `get_grad_hess`, `combined_objective`).

IEEE doubles are modelled as exact rationals; flat C arrays are modelled as
total functions from indices, and in-place mutation as explicit state
passing.  `std::stable_sort` is modelled by Mathlib's stable
`List.insertionSort` with the corresponding non-strict relation
(both produce the unique output that is pairwise non-strictly sorted and
keeps equivalent elements in their original order).
-/

namespace Moltr

/-- Truncation toward zero: the semantics of the C `<int>` cast applied to a
non-NaN double value. -/
def truncToInt (q : ℚ) : ℤ :=
  if 0 ≤ q then ⌊q⌋ else -⌊-q⌋

/-- Function `get_sigmoid` from `moltr/lambdaobj.pyx` (lines 12-25): clamped lookup
into the precomputed sigmoid table.  Arguments at or below
`min_sigmoid_arg` read the first entry, arguments at or above
`max_sigmoid_arg` read the last entry, and anything in between reads the
bin obtained by scaling the offset from `min_sigmoid_arg` by
`sigmoid_idx_factor` and casting to `int` (truncation). -/
def get_sigmoid (score : ℚ) (sigmoid_table : ℤ → ℚ) (n_sigmoid_bins : ℕ)
    (min_sigmoid_arg max_sigmoid_arg sigmoid_idx_factor : ℚ) : ℚ :=
  if score ≤ min_sigmoid_arg then sigmoid_table 0
  else if max_sigmoid_arg ≤ score then sigmoid_table ((n_sigmoid_bins : ℤ) - 1)
  else sigmoid_table (truncToInt ((score - min_sigmoid_arg) * sigmoid_idx_factor))

/-- The table index read by `get_sigmoid`: 0 and `n_sigmoid_bins - 1` in the
two clamped branches, the truncated scaled offset otherwise. -/
def get_sigmoid_index (score : ℚ) (n_sigmoid_bins : ℕ)
    (min_sigmoid_arg max_sigmoid_arg sigmoid_idx_factor : ℚ) : ℤ :=
  if score ≤ min_sigmoid_arg then 0
  else if max_sigmoid_arg ≤ score then (n_sigmoid_bins : ℤ) - 1
  else truncToInt ((score - min_sigmoid_arg) * sigmoid_idx_factor)

/-- The comparator of `argsort.cpp`: `cmp(a, b) = a.value > b.value` on
(index, value) pairs, taken as the non-strict sorting relation
"not (b strictly before a)", i.e. `b.value ≤ a.value`, which is the
relation along which a stable sort with that comparator leaves its output
pairwise ordered. -/
def rDesc (a b : ℕ × ℚ) : Prop := b.2 ≤ a.2

instance : DecidableRel rDesc := fun a b =>
  (inferInstance : Decidable (b.2 ≤ a.2))

instance : IsTotal (ℕ × ℚ) rDesc := ⟨fun a b => le_total b.2 a.2⟩

instance : IsTrans (ℕ × ℚ) rDesc := ⟨fun _ _ _ hab hbc => le_trans hbc hab⟩

/-- Index permutation produced by `argsort` for `n` scores: tag each index
with its value, stably sort by decreasing value, and read the indices
back off. -/
def argsortN (data : ℕ → ℚ) (n : ℕ) : List ℕ :=
  (List.insertionSort rDesc ((List.range n).map (fun i => (i, data i)))).map Prod.fst

/-- Function `argsort` from `argsort.cpp` (lines 18-33).  The C signature takes an
`int n`; a non-positive `n` produces the empty index list (its loops do
not execute). -/
def argsort (data : ℕ → ℚ) (n : ℤ) : List ℕ :=
  argsortN data n.toNat

/-- The gradient and Hessian accumulator arrays (flat, one entry per
document), threaded through the kernel as explicit state. -/
structure GH where
  grad : ℕ → ℚ
  hess : ℕ → ℚ

/-- Body of the doubly nested pair loop of `get_gradients_for_one_query`
(`moltr/lambdaobj.pyx` lines 66-96) at loop position `ij = (i, j)`:
`high = sorted_idx[i]`, `low = sorted_idx[j]`, and if
`gains[start + high] > gains[start + low]` the pair's lambda-gradient
contribution is accumulated into grad and hess (in the source's update
order: grad[high] += p_lambda, hess[high] += p_hess,
grad[low] -= p_lambda, hess[low] += p_hess).  `1 / 100` is the source's
literal `0.01`. -/
def pairStep (gains preds : ℕ → ℚ) (start : ℕ) (sorted_idx : List ℕ)
    (discounts : ℕ → ℚ) (inverse_max_dcg : ℚ) (sigmoid_table : ℤ → ℚ)
    (n_sigmoid_bins : ℕ) (min_sigmoid_arg max_sigmoid_arg sigmoid_idx_factor : ℚ)
    (should_adjust : Bool) (s : GH) (ij : ℕ × ℕ) : GH :=
  let high := sorted_idx.getD ij.1 0
  let low := sorted_idx.getD ij.2 0
  let gain_high := gains (start + high)
  let gain_low := gains (start + low)
  if gain_high > gain_low then
    let score_high := preds (start + high)
    let score_low := preds (start + low)
    let delta_score := score_high - score_low
    let p_lambda :=
      get_sigmoid delta_score sigmoid_table n_sigmoid_bins min_sigmoid_arg
        max_sigmoid_arg sigmoid_idx_factor
    let p_hess := p_lambda * (2 - p_lambda)
    let gain_diff := gain_high - gain_low
    let paired_discount := |discounts (1 + ij.2) - discounts (1 + ij.1)|
    let abs_delta_ndcg := gain_diff * paired_discount * inverse_max_dcg
    let abs_delta_ndcg :=
      if should_adjust then abs_delta_ndcg / (1 / 100 + |delta_score|)
      else abs_delta_ndcg
    let p_lambda := p_lambda * (-abs_delta_ndcg)
    let p_hess := p_hess * (2 * abs_delta_ndcg)
    let grad1 := Function.update s.grad (start + high) (s.grad (start + high) + p_lambda)
    let hess1 := Function.update s.hess (start + high) (s.hess (start + high) + p_hess)
    let grad2 := Function.update grad1 (start + low) (grad1 (start + low) - p_lambda)
    let hess2 := Function.update hess1 (start + low) (hess1 (start + low) + p_hess)
    { grad := grad2, hess := hess2 }
  else s

/-- The index pairs `(i, j)` visited by the nested loops
`for i in range(cnt): for j in range(cnt)`, in visit order. -/
def pairList (cnt : ℕ) : List (ℕ × ℕ) :=
  (List.range cnt).flatMap (fun i => (List.range cnt).map (fun j => (i, j)))

/-- Function `get_gradients_for_one_query` from `moltr/lambdaobj.pyx` (lines 28-97):
argsort the query's predictions, compute `should_adjust` from the best and
worst sorted scores, then run the pair loop. -/
def get_gradients_for_one_query (gains preds : ℕ → ℚ) (start end_ : ℕ)
    (discounts : ℕ → ℚ) (inverse_max_dcg : ℚ) (sigmoid_table : ℤ → ℚ)
    (n_sigmoid_bins : ℕ) (min_sigmoid_arg max_sigmoid_arg sigmoid_idx_factor : ℚ)
    (s : GH) : GH :=
  let cnt := end_ - start
  let sorted_idx := argsort (fun k => preds (start + k)) (cnt : ℤ)
  let best_score := preds (start + sorted_idx.getD 0 0)
  let worst_score := preds (start + sorted_idx.getD (cnt - 1) 0)
  let should_adjust := if best_score ≠ worst_score then true else false
  (pairList cnt).foldl
    (pairStep gains preds start sorted_idx discounts inverse_max_dcg sigmoid_table
      n_sigmoid_bins min_sigmoid_arg max_sigmoid_arg sigmoid_idx_factor should_adjust)
    s

/-- Function `_get_gradients` from `moltr/lambdaobj.pyx` (lines 100-139): zero the
first `n_preds` entries of grad and hess (the memsets), then process each
query's boundary slice.  The `prange` fan-out over queries is modelled as
a sequential left fold (each query only touches its own slice, so the
result does not depend on scheduling).  `groups` is received but never
read, exactly as in the source. -/
def _get_gradients (gains preds : ℕ → ℚ) (n_preds : ℕ) (groups : ℕ → ℤ)
    (query_boundaries : ℕ → ℕ) (n_queries : ℕ) (discounts : ℕ → ℚ)
    (inverse_max_dcgs : ℕ → ℚ) (sigmoid_table : ℤ → ℚ) (n_sigmoid_bins : ℕ)
    (min_sigmoid_arg max_sigmoid_arg sigmoid_idx_factor : ℚ)
    (grad hess : ℕ → ℚ) : GH :=
  let s0 : GH :=
    { grad := fun k => if k < n_preds then 0 else grad k
      hess := fun k => if k < n_preds then 0 else hess k }
  (List.range n_queries).foldl
    (fun s i =>
      get_gradients_for_one_query gains preds (query_boundaries i)
        (query_boundaries (i + 1)) discounts (inverse_max_dcgs i) sigmoid_table
        n_sigmoid_bins min_sigmoid_arg max_sigmoid_arg sigmoid_idx_factor s)
    s0

/-- The Python-visible `get_gradients` from `moltr/lambdaobj.pyx`
(lines 142-171): a direct pass-through to `_get_gradients`. -/
def get_gradients (gains preds : ℕ → ℚ) (n_preds : ℕ) (groups : ℕ → ℤ)
    (query_boundaries : ℕ → ℕ) (n_queries : ℕ) (discounts : ℕ → ℚ)
    (inverse_max_dcgs : ℕ → ℚ) (sigmoid_table : ℤ → ℚ) (n_sigmoid_bins : ℕ)
    (min_sigmoid_arg max_sigmoid_arg sigmoid_idx_factor : ℚ)
    (grad hess : ℕ → ℚ) : GH :=
  _get_gradients gains preds n_preds groups query_boundaries n_queries discounts
    inverse_max_dcgs sigmoid_table n_sigmoid_bins min_sigmoid_arg max_sigmoid_arg
    sigmoid_idx_factor grad hess

/-- The calculator fields read by the notebook's objective callbacks.
`moltr/calculator.py` itself is not under `src/`; the fields are modelled
from the spec's data model (query boundaries, discount table, per-query
inverse ideal DCG, sigmoid table and its index scale factor). -/
structure Calculator where
  query_boundaries : List ℕ
  discounts : ℕ → ℚ
  inverse_max_dcgs : ℕ → ℚ
  sigmoids : List ℚ
  sigmoid_idx_factor : ℚ

/-- The notebook's single-label dataset: label array, per-query group
sizes, and the calculator built from them. -/
structure DatasetWithCalculator where
  label : List ℚ
  groups : List ℤ
  calculator : Calculator

/-- The notebook's two-label dataset for the blended objective. -/
structure DatasetWithTwoLabels where
  label_1 : List ℚ
  label_2 : List ℚ
  groups : List ℤ
  calculator_1 : Calculator
  calculator_2 : Calculator
  alpha : ℚ

/-- Function `get_grad_hess` from the notebook: allocate zero grad/hess buffers of
length `len(preds)` and invoke the kernel with the calculator's tables.
`min_sigmoid_arg` and `max_sigmoid_arg` are the module constants of the
missing `calculator.py`, taken as parameters. -/
def get_grad_hess (labels preds : List ℚ) (groups : List ℤ) (c : Calculator)
    (min_sigmoid_arg max_sigmoid_arg : ℚ) : List ℚ × List ℚ :=
  let r :=
    get_gradients (fun k => labels.getD k 0) (fun k => preds.getD k 0)
      preds.length (fun k => groups.getD k 0)
      (fun k => c.query_boundaries.getD k 0) (c.query_boundaries.length - 1)
      c.discounts (fun k => c.inverse_max_dcgs k)
      (fun z => c.sigmoids.getD z.toNat 0) c.sigmoids.length
      min_sigmoid_arg max_sigmoid_arg c.sigmoid_idx_factor
      (fun _ => 0) (fun _ => 0)
  ((List.range preds.length).map r.grad, (List.range preds.length).map r.hess)

/-- Function `lambdamart_objective` from the notebook (cell at lines 167-189): raise
when the group sequence is empty (the notebook's `raise Error(...)`,
modelled as `Except.error`); otherwise compute grad/hess through the
kernel — the body is the same call as `get_grad_hess` with the dataset's
label and calculator.  No other validation is performed. -/
def lambdamart_objective (preds : List ℚ) (ds : DatasetWithCalculator)
    (min_sigmoid_arg max_sigmoid_arg : ℚ) : Except String (List ℚ × List ℚ) :=
  if ds.groups.length = 0 then
    Except.error ("Group/query data should not be empty.")
  else
    Except.ok
      (get_grad_hess ds.label preds ds.groups ds.calculator min_sigmoid_arg
        max_sigmoid_arg)

/-- Function `combined_objective` from the notebook (cell at lines 405-417): raise on
empty groups, otherwise blend the two independently computed single-label
gradient/Hessian pairs with weight `alpha` (numpy's elementwise
`alpha * a + (1 - alpha) * b`, modelled by `zipWith` on the equal-length
arrays). -/
def combined_objective (preds : List ℚ) (ds : DatasetWithTwoLabels)
    (min_sigmoid_arg max_sigmoid_arg : ℚ) : Except String (List ℚ × List ℚ) :=
  if ds.groups.length = 0 then
    Except.error ("Group/query data should not be empty.")
  else
    let gh1 := get_grad_hess ds.label_1 preds ds.groups ds.calculator_1
      min_sigmoid_arg max_sigmoid_arg
    let gh2 := get_grad_hess ds.label_2 preds ds.groups ds.calculator_2
      min_sigmoid_arg max_sigmoid_arg
    let alpha := ds.alpha
    Except.ok
      (List.zipWith (fun a b => alpha * a + (1 - alpha) * b) gh1.1 gh2.1,
       List.zipWith (fun a b => alpha * a + (1 - alpha) * b) gh1.2 gh2.2)

theorem argsortN_perm (data : ℕ → ℚ) (n : ℕ) :
    (argsortN data n).Perm (List.range n) := by
  have h1 : (List.insertionSort rDesc ((List.range n).map (fun i => (i, data i)))).Perm
      ((List.range n).map (fun i => (i, data i))) := List.perm_insertionSort _ _
  have h3 : (((List.range n).map (fun i => (i, data i))).map Prod.fst) = List.range n := by
    simp [List.map_map, Function.comp_def]
  unfold argsortN
  have h2 := h1.map Prod.fst
  rw [h3] at h2
  exact h2

theorem argsortN_length (data : ℕ → ℚ) (n : ℕ) :
    (argsortN data n).length = n := by
  simpa using (argsortN_perm data n).length_eq

theorem mem_argsortN {data : ℕ → ℚ} {n x : ℕ} (hx : x ∈ argsortN data n) :
    x < n := by
  have := ((argsortN_perm data n).mem_iff).mp hx
  simpa using this

theorem argsort_pairs_snd {data : ℕ → ℚ} {n : ℕ} {p : ℕ × ℚ}
    (hp : p ∈ List.insertionSort rDesc ((List.range n).map (fun i => (i, data i)))) :
    p.2 = data p.1 := by
  rw [List.mem_insertionSort] at hp
  obtain ⟨i, _, rfl⟩ := List.mem_map.mp hp
  rfl

theorem argsortN_sorted (data : ℕ → ℚ) (n : ℕ) :
    ((argsortN data n).map data).Sorted (fun a b => b ≤ a) := by
  have hs : (List.insertionSort rDesc ((List.range n).map (fun i => (i, data i)))).Sorted rDesc :=
    List.sorted_insertionSort rDesc _
  have hs' : (List.insertionSort rDesc ((List.range n).map (fun i => (i, data i)))).Pairwise
      (fun p q => data q.1 ≤ data p.1) := by
    refine hs.imp_of_mem ?_
    intro p q hp hq hr
    have h1 := argsort_pairs_snd hp
    have h2 := argsort_pairs_snd hq
    rw [rDesc, h1, h2] at hr
    exact hr
  unfold argsortN
  rw [List.map_map]
  exact hs'.map _ (fun a b h => h)

theorem pair_sublist_range {i j n : ℕ} (hij : i < j) (hjn : j < n) :
    List.Sublist [i, j] (List.range n) := by
  have h1 : List.Sublist [i, j] (List.range (j + 1)) := by
    rw [List.range_succ]
    exact List.Sublist.append (List.singleton_sublist.mpr (List.mem_range.mpr hij))
      (List.Sublist.refl _)
  exact h1.trans (List.range_sublist.mpr hjn)

theorem argsortN_stable (data : ℕ → ℚ) {n i j : ℕ} (hij : i < j) (hjn : j < n)
    (heq : data i = data j) : List.Sublist [i, j] (argsortN data n) := by
  have hpairs : List.Sublist [(i, data i), (j, data j)]
      ((List.range n).map (fun k => (k, data k))) := by
    simpa using (pair_sublist_range hij hjn).map (fun k => (k, data k))
  have hr : rDesc (i, data i) (j, data j) := by
    simp [rDesc, heq]
  have hsub := List.pair_sublist_insertionSort hr hpairs
  simpa using hsub.map Prod.fst

theorem argsortN_descending_eq (data : ℕ → ℚ) (n : ℕ)
    (hd : ∀ a b : ℕ, a ≤ b → b < n → data b ≤ data a) :
    argsortN data n = List.range n := by
  have hs : ((List.range n).map (fun i => (i, data i))).Sorted rDesc := by
    rw [List.Sorted, List.pairwise_map]
    have h0 : (List.range n).Pairwise (fun a b => a < b) := List.pairwise_lt_range n
    refine h0.imp_of_mem ?_
    intro a b _ hb hab
    exact hd a b hab.le (List.mem_range.mp hb)
  unfold argsortN
  rw [hs.insertionSort_eq, List.map_map]
  simp [Function.comp_def]


theorem getD_mem_of_lt {l : List ℕ} {i : ℕ} (h : i < l.length) : l.getD i 0 ∈ l := by
  rw [List.getD_eq_getElem l 0 h]
  exact List.getElem_mem h

theorem mem_pairList {cnt : ℕ} {ij : ℕ × ℕ} (h : ij ∈ pairList cnt) :
    ij.1 < cnt ∧ ij.2 < cnt := by
  unfold pairList at h
  rw [List.mem_flatMap] at h
  obtain ⟨i, hi, hmem⟩ := h
  rw [List.mem_map] at hmem
  obtain ⟨j, hj, rfl⟩ := hmem
  exact ⟨List.mem_range.mp hi, List.mem_range.mp hj⟩

/-- A state predicate preserved by every step of a fold is preserved by the
whole fold. -/
theorem foldl_invariant {α : Type} (P : GH → Prop) (f : GH → α → GH) :
    ∀ (l : List α) (s : GH), P s →
      (∀ s' a, a ∈ l → P s' → P (f s' a)) → P (l.foldl f s)
  | [], _, hs, _ => hs
  | a :: t, s, hs, hf => by
    simp only [List.foldl_cons]
    exact foldl_invariant P f t (f s a) (hf s a (List.mem_cons_self a t) hs)
      (fun s' b hb => hf s' b (List.mem_cons_of_mem a hb))

theorem sum_update_add (S : Finset ℕ) (f : ℕ → ℚ) (a : ℕ) (ha : a ∈ S) (c : ℚ) :
    ∑ k in S, Function.update f a (f a + c) k = (∑ k in S, f k) + c := by
  rw [Finset.sum_update_of_mem ha, Finset.sum_eq_sum_diff_singleton_add ha f]
  ring

theorem sum_update_sub (S : Finset ℕ) (f : ℕ → ℚ) (a : ℕ) (ha : a ∈ S) (c : ℚ) :
    ∑ k in S, Function.update f a (f a - c) k = (∑ k in S, f k) - c := by
  have h := sum_update_add S f a ha (-c)
  simpa [sub_eq_add_neg] using h

/-- Adding `c` at one member of `S` and subtracting it at another leaves the
sum over `S` unchanged (also when the two members coincide, since the two
updates are applied sequentially). -/
theorem sum_double_update (S : Finset ℕ) (f : ℕ → ℚ) (a b : ℕ)
    (ha : a ∈ S) (hb : b ∈ S) (c : ℚ) :
    ∑ k in S, (Function.update (Function.update f a (f a + c)) b
      (Function.update f a (f a + c) b - c)) k = ∑ k in S, f k := by
  rw [sum_update_sub S (Function.update f a (f a + c)) b hb c,
    sum_update_add S f a ha c]
  ring

theorem double_update_fst (f : ℕ → ℚ) (a b : ℕ) (hab : a ≠ b) (u v : ℚ) :
    Function.update (Function.update f a u) b v a = u := by
  rw [Function.update_noteq hab, Function.update_same]

theorem double_update_snd (f : ℕ → ℚ) (a b : ℕ) (u v : ℚ) :
    Function.update (Function.update f a u) b v b = v := by
  rw [Function.update_same]

theorem pairStep_frame (gains preds : ℕ → ℚ) (start : ℕ) (sorted_idx : List ℕ)
    (discounts : ℕ → ℚ) (inverse_max_dcg : ℚ) (sigmoid_table : ℤ → ℚ)
    (n_sigmoid_bins : ℕ) (min_sigmoid_arg max_sigmoid_arg sigmoid_idx_factor : ℚ)
    (should_adjust : Bool) (s : GH) (ij : ℕ × ℕ) (k : ℕ)
    (hk1 : k ≠ start + sorted_idx.getD ij.1 0)
    (hk2 : k ≠ start + sorted_idx.getD ij.2 0) :
    (pairStep gains preds start sorted_idx discounts inverse_max_dcg sigmoid_table
        n_sigmoid_bins min_sigmoid_arg max_sigmoid_arg sigmoid_idx_factor
        should_adjust s ij).grad k = s.grad k ∧
    (pairStep gains preds start sorted_idx discounts inverse_max_dcg sigmoid_table
        n_sigmoid_bins min_sigmoid_arg max_sigmoid_arg sigmoid_idx_factor
        should_adjust s ij).hess k = s.hess k := by
  by_cases hc : gains (start + sorted_idx.getD ij.1 0) >
      gains (start + sorted_idx.getD ij.2 0)
  · constructor
    · simp only [pairStep]
      rw [if_pos hc]
      exact (Function.update_noteq hk2 _ _).trans (Function.update_noteq hk1 _ _)
    · simp only [pairStep]
      rw [if_pos hc]
      exact (Function.update_noteq hk2 _ _).trans (Function.update_noteq hk1 _ _)
  · constructor
    · simp only [pairStep]
      rw [if_neg hc]
    · simp only [pairStep]
      rw [if_neg hc]

theorem pairStep_sum_grad (gains preds : ℕ → ℚ) (start : ℕ) (sorted_idx : List ℕ)
    (discounts : ℕ → ℚ) (inverse_max_dcg : ℚ) (sigmoid_table : ℤ → ℚ)
    (n_sigmoid_bins : ℕ) (min_sigmoid_arg max_sigmoid_arg sigmoid_idx_factor : ℚ)
    (should_adjust : Bool) (s : GH) (ij : ℕ × ℕ) (S : Finset ℕ)
    (hhi : start + sorted_idx.getD ij.1 0 ∈ S)
    (hlo : start + sorted_idx.getD ij.2 0 ∈ S) :
    ∑ k in S, (pairStep gains preds start sorted_idx discounts inverse_max_dcg
        sigmoid_table n_sigmoid_bins min_sigmoid_arg max_sigmoid_arg
        sigmoid_idx_factor should_adjust s ij).grad k = ∑ k in S, s.grad k := by
  by_cases hc : gains (start + sorted_idx.getD ij.1 0) >
      gains (start + sorted_idx.getD ij.2 0)
  · simp only [pairStep]
    rw [if_pos hc]
    exact sum_double_update S s.grad _ _ hhi hlo _
  · simp only [pairStep]
    rw [if_neg hc]

theorem length_argsort_natCast (data : ℕ → ℚ) (cnt : ℕ) :
    (argsort data (cnt : ℤ)).length = cnt := by
  unfold argsort
  rw [Int.toNat_natCast]
  exact argsortN_length data cnt

theorem mem_argsort_natCast {data : ℕ → ℚ} {cnt x : ℕ}
    (hx : x ∈ argsort data (cnt : ℤ)) : x < cnt := by
  unfold argsort at hx
  rw [Int.toNat_natCast] at hx
  exact mem_argsortN hx

/-- Processing one query leaves every entry outside `[start, end_)` of both
output arrays untouched. -/
theorem one_query_frame (gains preds : ℕ → ℚ) (start end_ : ℕ)
    (discounts : ℕ → ℚ) (inverse_max_dcg : ℚ) (sigmoid_table : ℤ → ℚ)
    (n_sigmoid_bins : ℕ) (min_sigmoid_arg max_sigmoid_arg sigmoid_idx_factor : ℚ)
    (s : GH) (k : ℕ) (hk : k < start ∨ end_ ≤ k) :
    (get_gradients_for_one_query gains preds start end_ discounts inverse_max_dcg
        sigmoid_table n_sigmoid_bins min_sigmoid_arg max_sigmoid_arg
        sigmoid_idx_factor s).grad k = s.grad k ∧
    (get_gradients_for_one_query gains preds start end_ discounts inverse_max_dcg
        sigmoid_table n_sigmoid_bins min_sigmoid_arg max_sigmoid_arg
        sigmoid_idx_factor s).hess k = s.hess k := by
  simp only [get_gradients_for_one_query]
  refine foldl_invariant (fun t => t.grad k = s.grad k ∧ t.hess k = s.hess k) _ _ _
    ⟨rfl, rfl⟩ ?_
  intro s' ij hij hP
  obtain ⟨hi, hj⟩ := mem_pairList hij
  have hlen := length_argsort_natCast (fun t => preds (start + t)) (end_ - start)
  have hx1 : (argsort (fun t => preds (start + t)) ((end_ - start : ℕ) : ℤ)).getD ij.1 0
      < end_ - start :=
    mem_argsort_natCast (getD_mem_of_lt (by rw [hlen]; exact hi))
  have hx2 : (argsort (fun t => preds (start + t)) ((end_ - start : ℕ) : ℤ)).getD ij.2 0
      < end_ - start :=
    mem_argsort_natCast (getD_mem_of_lt (by rw [hlen]; exact hj))
  have hk1 : k ≠ start + (argsort (fun t => preds (start + t))
      ((end_ - start : ℕ) : ℤ)).getD ij.1 0 := by omega
  have hk2 : k ≠ start + (argsort (fun t => preds (start + t))
      ((end_ - start : ℕ) : ℤ)).getD ij.2 0 := by omega
  exact ⟨(pairStep_frame gains preds start _ discounts inverse_max_dcg
      sigmoid_table n_sigmoid_bins min_sigmoid_arg max_sigmoid_arg
      sigmoid_idx_factor _ s' ij k hk1 hk2).1.trans hP.1,
    (pairStep_frame gains preds start _ discounts inverse_max_dcg
      sigmoid_table n_sigmoid_bins min_sigmoid_arg max_sigmoid_arg
      sigmoid_idx_factor _ s' ij k hk1 hk2).2.trans hP.2⟩

/-- Processing one query preserves the sum of the gradient entries over any
index set containing the query's slice. -/
theorem one_query_sum_grad (gains preds : ℕ → ℚ) (start end_ : ℕ)
    (discounts : ℕ → ℚ) (inverse_max_dcg : ℚ) (sigmoid_table : ℤ → ℚ)
    (n_sigmoid_bins : ℕ) (min_sigmoid_arg max_sigmoid_arg sigmoid_idx_factor : ℚ)
    (s : GH) (S : Finset ℕ) (hS : ∀ x, start ≤ x → x < end_ → x ∈ S) :
    ∑ k in S, (get_gradients_for_one_query gains preds start end_ discounts
        inverse_max_dcg sigmoid_table n_sigmoid_bins min_sigmoid_arg
        max_sigmoid_arg sigmoid_idx_factor s).grad k = ∑ k in S, s.grad k := by
  simp only [get_gradients_for_one_query]
  refine foldl_invariant (fun t => ∑ k in S, t.grad k = ∑ k in S, s.grad k) _ _ _
    rfl ?_
  intro s' ij hij hP
  obtain ⟨hi, hj⟩ := mem_pairList hij
  have hlen := length_argsort_natCast (fun t => preds (start + t)) (end_ - start)
  have hx1 : (argsort (fun t => preds (start + t)) ((end_ - start : ℕ) : ℤ)).getD ij.1 0
      < end_ - start :=
    mem_argsort_natCast (getD_mem_of_lt (by rw [hlen]; exact hi))
  have hx2 : (argsort (fun t => preds (start + t)) ((end_ - start : ℕ) : ℤ)).getD ij.2 0
      < end_ - start :=
    mem_argsort_natCast (getD_mem_of_lt (by rw [hlen]; exact hj))
  have hhi : start + (argsort (fun t => preds (start + t))
      ((end_ - start : ℕ) : ℤ)).getD ij.1 0 ∈ S :=
    hS (start + (argsort (fun t => preds (start + t))
      ((end_ - start : ℕ) : ℤ)).getD ij.1 0) (Nat.le_add_right _ _) (by omega)
  have hlo : start + (argsort (fun t => preds (start + t))
      ((end_ - start : ℕ) : ℤ)).getD ij.2 0 ∈ S :=
    hS (start + (argsort (fun t => preds (start + t))
      ((end_ - start : ℕ) : ℤ)).getD ij.2 0) (Nat.le_add_right _ _) (by omega)
  exact (pairStep_sum_grad gains preds start _ discounts inverse_max_dcg
    sigmoid_table n_sigmoid_bins min_sigmoid_arg max_sigmoid_arg
    sigmoid_idx_factor _ s' ij S hhi hlo).trans hP

/-- If all of the query's gains coincide, processing the query is the
identity: no pair satisfies the strict gain comparison. -/
theorem one_query_id (gains preds : ℕ → ℚ) (start end_ : ℕ)
    (discounts : ℕ → ℚ) (inverse_max_dcg : ℚ) (sigmoid_table : ℤ → ℚ)
    (n_sigmoid_bins : ℕ) (min_sigmoid_arg max_sigmoid_arg sigmoid_idx_factor : ℚ)
    (s : GH)
    (heq : ∀ d1 d2, start ≤ d1 → d1 < end_ → start ≤ d2 → d2 < end_ →
      gains d1 = gains d2) :
    get_gradients_for_one_query gains preds start end_ discounts inverse_max_dcg
      sigmoid_table n_sigmoid_bins min_sigmoid_arg max_sigmoid_arg
      sigmoid_idx_factor s = s := by
  simp only [get_gradients_for_one_query]
  refine foldl_invariant (fun t => t = s) _ _ _ rfl ?_
  intro s' ij hij hP
  subst hP
  obtain ⟨hi, hj⟩ := mem_pairList hij
  have hlen := length_argsort_natCast (fun t => preds (start + t)) (end_ - start)
  have hx1 : (argsort (fun t => preds (start + t)) ((end_ - start : ℕ) : ℤ)).getD ij.1 0
      < end_ - start :=
    mem_argsort_natCast (getD_mem_of_lt (by rw [hlen]; exact hi))
  have hx2 : (argsort (fun t => preds (start + t)) ((end_ - start : ℕ) : ℤ)).getD ij.2 0
      < end_ - start :=
    mem_argsort_natCast (getD_mem_of_lt (by rw [hlen]; exact hj))
  have hc : ¬ (gains (start + (argsort (fun t => preds (start + t))
      ((end_ - start : ℕ) : ℤ)).getD ij.1 0) >
      gains (start + (argsort (fun t => preds (start + t))
        ((end_ - start : ℕ) : ℤ)).getD ij.2 0)) := by
    have h := heq
      (start + (argsort (fun t => preds (start + t))
        ((end_ - start : ℕ) : ℤ)).getD ij.1 0)
      (start + (argsort (fun t => preds (start + t))
        ((end_ - start : ℕ) : ℤ)).getD ij.2 0)
      (Nat.le_add_right start _) (by omega) (Nat.le_add_right start _) (by omega)
    rw [h]
    exact lt_irrefl _
  simp only [pairStep]
  rw [if_neg hc]

/-- Claim C2: the sigmoid-table lookup used for `p` is total and clamped:
a score difference at or below `min_sigmoid_arg` returns the table's first
entry, one at or above `max_sigmoid_arg` returns its last entry, and
anything in between returns the entry at index
`floor((score - min_sigmoid_arg) * sigmoid_idx_factor)`; out-of-range
arguments are clamped by design, never an error (the embedding is a total
function).  The hypotheses record the deployed configuration: a nonempty
span and a nonnegative index factor. -/
theorem get_sigmoid_clamped (score : ℚ) (sigmoid_table : ℤ → ℚ)
    (n_sigmoid_bins : ℕ) (min_sigmoid_arg max_sigmoid_arg sigmoid_idx_factor : ℚ)
    (hspan : min_sigmoid_arg < max_sigmoid_arg) (hfac : 0 ≤ sigmoid_idx_factor) :
    (score ≤ min_sigmoid_arg →
      get_sigmoid score sigmoid_table n_sigmoid_bins min_sigmoid_arg
        max_sigmoid_arg sigmoid_idx_factor = sigmoid_table 0) ∧
    (max_sigmoid_arg ≤ score →
      get_sigmoid score sigmoid_table n_sigmoid_bins min_sigmoid_arg
        max_sigmoid_arg sigmoid_idx_factor =
        sigmoid_table ((n_sigmoid_bins : ℤ) - 1)) ∧
    (min_sigmoid_arg < score → score < max_sigmoid_arg →
      get_sigmoid score sigmoid_table n_sigmoid_bins min_sigmoid_arg
        max_sigmoid_arg sigmoid_idx_factor =
        sigmoid_table ⌊(score - min_sigmoid_arg) * sigmoid_idx_factor⌋) := by
  refine ⟨fun h => ?_, fun h => ?_, fun h1 h2 => ?_⟩
  · unfold get_sigmoid
    rw [if_pos h]
  · unfold get_sigmoid
    rw [if_neg (not_le.mpr (lt_of_lt_of_le hspan h)), if_pos h]
  · unfold get_sigmoid
    rw [if_neg (not_le.mpr h1), if_neg (not_le.mpr h2)]
    congr 1
    unfold truncToInt
    rw [if_pos (mul_nonneg (by linarith) hfac)]

theorem get_sigmoid_clamped_witness :
    get_sigmoid (-3) (fun z => (z : ℚ)) 4 (-2) 2 1 = 0 := by
  have h := (get_sigmoid_clamped (-3) (fun z => (z : ℚ)) 4 (-2) 2 1 (by norm_num)
    (by norm_num)).1 (by norm_num)
  rw [h]
  norm_num

/-- Claim C10: under the calculator's configuration
(`min_sigmoid_arg < max_sigmoid_arg`, at least one bin, and
`sigmoid_idx_factor = n_sigmoid_bins / (max_sigmoid_arg - min_sigmoid_arg)`
in exact arithmetic), the table index computed by the sigmoid lookup lies
in `[0, n_sigmoid_bins - 1]` for every score, so the lookup never reads
the sigmoid table out of bounds. -/
theorem get_sigmoid_index_in_bounds (score : ℚ) (sigmoid_table : ℤ → ℚ)
    (n_sigmoid_bins : ℕ) (min_sigmoid_arg max_sigmoid_arg sigmoid_idx_factor : ℚ)
    (hspan : min_sigmoid_arg < max_sigmoid_arg) (hbins : 1 ≤ n_sigmoid_bins)
    (hfac : sigmoid_idx_factor =
      (n_sigmoid_bins : ℚ) / (max_sigmoid_arg - min_sigmoid_arg)) :
    0 ≤ get_sigmoid_index score n_sigmoid_bins min_sigmoid_arg max_sigmoid_arg
        sigmoid_idx_factor ∧
    get_sigmoid_index score n_sigmoid_bins min_sigmoid_arg max_sigmoid_arg
        sigmoid_idx_factor ≤ (n_sigmoid_bins : ℤ) - 1 ∧
    get_sigmoid score sigmoid_table n_sigmoid_bins min_sigmoid_arg
        max_sigmoid_arg sigmoid_idx_factor =
      sigmoid_table (get_sigmoid_index score n_sigmoid_bins min_sigmoid_arg
        max_sigmoid_arg sigmoid_idx_factor) := by
  unfold get_sigmoid get_sigmoid_index
  by_cases h1 : score ≤ min_sigmoid_arg
  · rw [if_pos h1, if_pos h1]
    exact ⟨le_refl 0, by omega, rfl⟩
  · by_cases h2 : max_sigmoid_arg ≤ score
    · rw [if_neg h1, if_neg h1, if_pos h2, if_pos h2]
      exact ⟨by omega, le_refl _, rfl⟩
    · rw [if_neg h1, if_neg h1, if_neg h2, if_neg h2]
      have hd : (0 : ℚ) < max_sigmoid_arg - min_sigmoid_arg := by linarith
      have hnq : (0 : ℚ) < (n_sigmoid_bins : ℚ) := by
        exact_mod_cast Nat.lt_of_lt_of_le Nat.zero_lt_one hbins
      have hx0 : (0 : ℚ) < score - min_sigmoid_arg := by
        have := not_le.mp h1
        linarith
      have hfpos : (0 : ℚ) < sigmoid_idx_factor := by
        rw [hfac]
        exact div_pos hnq hd
      have hxpos : (0 : ℚ) ≤ (score - min_sigmoid_arg) * sigmoid_idx_factor :=
        le_of_lt (mul_pos hx0 hfpos)
      have htr : truncToInt ((score - min_sigmoid_arg) * sigmoid_idx_factor) =
          ⌊(score - min_sigmoid_arg) * sigmoid_idx_factor⌋ := by
        unfold truncToInt
        rw [if_pos hxpos]
      have hlt : (score - min_sigmoid_arg) * sigmoid_idx_factor
          < (n_sigmoid_bins : ℚ) := by
        rw [hfac]
        have h3 : score - min_sigmoid_arg < max_sigmoid_arg - min_sigmoid_arg := by
          have := not_le.mp h2
          linarith
        have h4 : (score - min_sigmoid_arg) *
            ((n_sigmoid_bins : ℚ) / (max_sigmoid_arg - min_sigmoid_arg))
            < (max_sigmoid_arg - min_sigmoid_arg) *
            ((n_sigmoid_bins : ℚ) / (max_sigmoid_arg - min_sigmoid_arg)) :=
          mul_lt_mul_of_pos_right h3 (div_pos hnq hd)
        have h5 : (max_sigmoid_arg - min_sigmoid_arg) *
            ((n_sigmoid_bins : ℚ) / (max_sigmoid_arg - min_sigmoid_arg))
            = (n_sigmoid_bins : ℚ) := by
          field_simp
        rw [h5] at h4
        exact h4
      have hfl : ⌊(score - min_sigmoid_arg) * sigmoid_idx_factor⌋
          < (n_sigmoid_bins : ℤ) := by
        rw [Int.floor_lt]
        exact_mod_cast hlt
      refine ⟨?_, ?_, rfl⟩
      · rw [htr]
        exact Int.floor_nonneg.mpr hxpos
      · rw [htr]
        omega

theorem get_sigmoid_index_in_bounds_witness :
    0 ≤ get_sigmoid_index 1 4 (-2) 2 1 ∧
    get_sigmoid_index 1 4 (-2) 2 1 ≤ ((4 : ℕ) : ℤ) - 1 ∧
    get_sigmoid 1 (fun z => (z : ℚ)) 4 (-2) 2 1 =
      (fun z => (z : ℚ)) (get_sigmoid_index 1 4 (-2) 2 1) :=
  get_sigmoid_index_in_bounds 1 (fun z => (z : ℚ)) 4 (-2) 2 1 (by norm_num)
    (by norm_num) (by norm_num)

/-- Claim C4: for every score array, argsort returns a permutation of the
indices `0..n-1`; reindexing the input by it yields a non-increasing
sequence; two equal values keep their original relative index order
(stability, expressed by `[i, j]` remaining a sublist of the output); and
an already-descending input yields the identity permutation.  The witness
exercises the `[3, 1, 3]` tie case: index 0 is placed before index 2. -/
theorem argsort_correct (data : ℕ → ℚ) (n : ℤ) :
    (argsort data n).Perm (List.range n.toNat) ∧
    ((argsort data n).map data).Sorted (fun a b => b ≤ a) ∧
    (∀ i j : ℕ, i < j → j < n.toNat → data i = data j →
      List.Sublist [i, j] (argsort data n)) ∧
    ((∀ a b : ℕ, a ≤ b → b < n.toNat → data b ≤ data a) →
      argsort data n = List.range n.toNat) :=
  ⟨argsortN_perm data n.toNat, argsortN_sorted data n.toNat,
    fun _ _ hij hjn heq => argsortN_stable data hij hjn heq,
    fun hd => argsortN_descending_eq data n.toNat hd⟩

theorem argsort_correct_witness :
    List.Sublist [0, 2] (argsort (fun i => [(3 : ℚ), 1, 3].getD i 0) 3) :=
  (argsort_correct (fun i => [(3 : ℚ), 1, 3].getD i 0) 3).2.2.1 0 2
    (by decide) (by decide) (by decide)

/-- Claim C5: a non-positive `n` yields the empty permutation, and the sort
utility has no other error condition — it is a total function of its score
array (totality is by construction of the embedding). -/
theorem argsort_nonpos (data : ℕ → ℚ) (n : ℤ) (h : n ≤ 0) :
    argsort data n = [] := by
  unfold argsort argsortN
  rw [Int.toNat_of_nonpos h]
  rfl

theorem argsort_nonpos_witness : argsort (fun _ => (0 : ℚ)) (-1) = [] :=
  argsort_nonpos (fun _ => (0 : ℚ)) (-1) (by decide)

/-- Claim C6: for every query `i` of the fan-out, the per-query gradient
computation writes only to the index range
`[query_boundaries i, query_boundaries (i+1))` of the gradient and Hessian
output arrays: every entry outside that slice is unchanged (and the
embedding is pure, so no other input is modified); the slices of distinct
queries being disjoint, the per-query parallel fan-out needs no
synchronization. -/
theorem query_writes_only_own_slice (gains preds : ℕ → ℚ)
    (query_boundaries : ℕ → ℕ) (i : ℕ) (discounts : ℕ → ℚ)
    (inverse_max_dcg : ℚ) (sigmoid_table : ℤ → ℚ) (n_sigmoid_bins : ℕ)
    (min_sigmoid_arg max_sigmoid_arg sigmoid_idx_factor : ℚ) (s : GH) (k : ℕ)
    (hk : k < query_boundaries i ∨ query_boundaries (i + 1) ≤ k) :
    (get_gradients_for_one_query gains preds (query_boundaries i)
        (query_boundaries (i + 1)) discounts inverse_max_dcg sigmoid_table
        n_sigmoid_bins min_sigmoid_arg max_sigmoid_arg sigmoid_idx_factor
        s).grad k = s.grad k ∧
    (get_gradients_for_one_query gains preds (query_boundaries i)
        (query_boundaries (i + 1)) discounts inverse_max_dcg sigmoid_table
        n_sigmoid_bins min_sigmoid_arg max_sigmoid_arg sigmoid_idx_factor
        s).hess k = s.hess k :=
  one_query_frame gains preds (query_boundaries i) (query_boundaries (i + 1))
    discounts inverse_max_dcg sigmoid_table n_sigmoid_bins min_sigmoid_arg
    max_sigmoid_arg sigmoid_idx_factor s k hk

theorem query_writes_only_own_slice_witness :
    (get_gradients_for_one_query (fun d => (d : ℚ)) (fun d => (d : ℚ)) 0 2
        (fun _ => 1) 1 (fun _ => 1/2) 4 (-2) 2 1
        ⟨fun _ => 3, fun _ => 4⟩).grad 5 = 3 ∧
    (get_gradients_for_one_query (fun d => (d : ℚ)) (fun d => (d : ℚ)) 0 2
        (fun _ => 1) 1 (fun _ => 1/2) 4 (-2) 2 1
        ⟨fun _ => 3, fun _ => 4⟩).hess 5 = 4 :=
  query_writes_only_own_slice (fun d => (d : ℚ)) (fun d => (d : ℚ))
    (fun i => 2 * i) 0 (fun _ => 1) 1 (fun _ => 1/2) 4 (-2) 2 1
    ⟨fun _ => 3, fun _ => 4⟩ 5 (Or.inr (by decide))

/-- Claim C8: if every document of query `q` carries the same gain/label,
then after the kernel call every gradient and Hessian entry in query `q`'s
slice is exactly zero — no qualifying pair exists, and the kernel
zero-initializes the output arrays.  The query-boundary table is monotone
with final entry at most `n_preds`, as the data model guarantees. -/
theorem equal_labels_query_zero (gains preds : ℕ → ℚ) (n_preds : ℕ)
    (groups : ℕ → ℤ) (query_boundaries : ℕ → ℕ) (n_queries : ℕ)
    (discounts : ℕ → ℚ) (inverse_max_dcgs : ℕ → ℚ) (sigmoid_table : ℤ → ℚ)
    (n_sigmoid_bins : ℕ) (min_sigmoid_arg max_sigmoid_arg sigmoid_idx_factor : ℚ)
    (grad hess : ℕ → ℚ) (q : ℕ) (hq : q < n_queries)
    (hmono : ∀ a b : ℕ, a ≤ b → b ≤ n_queries →
      query_boundaries a ≤ query_boundaries b)
    (hlast : query_boundaries n_queries ≤ n_preds)
    (heq : ∀ d1 d2, query_boundaries q ≤ d1 → d1 < query_boundaries (q + 1) →
      query_boundaries q ≤ d2 → d2 < query_boundaries (q + 1) →
      gains d1 = gains d2) :
    ∀ k, query_boundaries q ≤ k → k < query_boundaries (q + 1) →
      (_get_gradients gains preds n_preds groups query_boundaries n_queries
        discounts inverse_max_dcgs sigmoid_table n_sigmoid_bins min_sigmoid_arg
        max_sigmoid_arg sigmoid_idx_factor grad hess).grad k = 0 ∧
      (_get_gradients gains preds n_preds groups query_boundaries n_queries
        discounts inverse_max_dcgs sigmoid_table n_sigmoid_bins min_sigmoid_arg
        max_sigmoid_arg sigmoid_idx_factor grad hess).hess k = 0 := by
  have hq1 : query_boundaries (q + 1) ≤ query_boundaries n_queries :=
    hmono (q + 1) n_queries hq (le_refl _)
  simp only [_get_gradients]
  refine foldl_invariant
    (fun t => ∀ k, query_boundaries q ≤ k → k < query_boundaries (q + 1) →
      t.grad k = 0 ∧ t.hess k = 0) _ _ _ ?_ ?_
  · intro k _ hk2
    have hkn : k < n_preds := by omega
    exact ⟨by simp [hkn], by simp [hkn]⟩
  · intro s' i hi hP
    rw [List.mem_range] at hi
    intro k hk1 hk2
    by_cases hiq : i = q
    · have hid := one_query_id gains preds (query_boundaries i)
        (query_boundaries (i + 1)) discounts (inverse_max_dcgs i) sigmoid_table
        n_sigmoid_bins min_sigmoid_arg max_sigmoid_arg sigmoid_idx_factor s'
        (fun d1 d2 h1 h2 h3 h4 =>
          heq d1 d2 (hiq ▸ h1) (hiq ▸ h2) (hiq ▸ h3) (hiq ▸ h4))
      exact ⟨(congrArg (fun t => GH.grad t k) hid).trans (hP k hk1 hk2).1,
        (congrArg (fun t => GH.hess t k) hid).trans (hP k hk1 hk2).2⟩
    · have hor : k < query_boundaries i ∨ query_boundaries (i + 1) ≤ k := by
        rcases Nat.lt_or_ge i q with h | h
        · right
          have := hmono (i + 1) q h (le_of_lt hq)
          omega
        · have hqi : q < i := lt_of_le_of_ne h (fun he => hiq he.symm)
          left
          have := hmono (q + 1) i hqi (le_of_lt hi)
          omega
      have hfr := one_query_frame gains preds (query_boundaries i)
        (query_boundaries (i + 1)) discounts (inverse_max_dcgs i) sigmoid_table
        n_sigmoid_bins min_sigmoid_arg max_sigmoid_arg sigmoid_idx_factor s' k hor
      exact ⟨hfr.1.trans (hP k hk1 hk2).1, hfr.2.trans (hP k hk1 hk2).2⟩

theorem equal_labels_query_zero_witness :
    (_get_gradients (fun _ => 1) (fun d => (d : ℚ)) 2 (fun _ => 2)
        (fun i => 2 * min i 1) 1 (fun _ => 1) (fun _ => 1) (fun _ => 1/2) 4
        (-2) 2 1 (fun _ => 0) (fun _ => 0)).grad 0 = 0 ∧
    (_get_gradients (fun _ => 1) (fun d => (d : ℚ)) 2 (fun _ => 2)
        (fun i => 2 * min i 1) 1 (fun _ => 1) (fun _ => 1) (fun _ => 1/2) 4
        (-2) 2 1 (fun _ => 0) (fun _ => 0)).hess 0 = 0 :=
  equal_labels_query_zero (fun _ => 1) (fun d => (d : ℚ)) 2 (fun _ => 2)
    (fun i => 2 * min i 1) 1 (fun _ => 1) (fun _ => 1) (fun _ => 1/2) 4
    (-2) 2 1 (fun _ => 0) (fun _ => 0) 0 (by decide)
    (fun a b hab hb1 => by simp only []; omega)
    (by decide) (fun d1 d2 _ _ _ _ => rfl) 0 (by decide) (by decide)

/-- Claim C9: each processed pair adds a quantity to the high document's
gradient entry and subtracts the same quantity from the low document's, so
starting from the zero-initialized arrays the sum of the gradient entries
over every query's slice is exactly zero after the call, and hence the sum
over the whole gradient array `[0, n_preds)` is zero.  The query-boundary
table is monotone with final entry at most `n_preds`, as the data model
guarantees. -/
theorem grad_sums_zero (gains preds : ℕ → ℚ) (n_preds : ℕ) (groups : ℕ → ℤ)
    (query_boundaries : ℕ → ℕ) (n_queries : ℕ) (discounts : ℕ → ℚ)
    (inverse_max_dcgs : ℕ → ℚ) (sigmoid_table : ℤ → ℚ) (n_sigmoid_bins : ℕ)
    (min_sigmoid_arg max_sigmoid_arg sigmoid_idx_factor : ℚ) (grad hess : ℕ → ℚ)
    (hmono : ∀ a b : ℕ, a ≤ b → b ≤ n_queries →
      query_boundaries a ≤ query_boundaries b)
    (hlast : query_boundaries n_queries ≤ n_preds) :
    (∀ q, q < n_queries →
      ∑ k in Finset.Ico (query_boundaries q) (query_boundaries (q + 1)),
        (_get_gradients gains preds n_preds groups query_boundaries n_queries
          discounts inverse_max_dcgs sigmoid_table n_sigmoid_bins
          min_sigmoid_arg max_sigmoid_arg sigmoid_idx_factor grad
          hess).grad k = 0) ∧
    ∑ k in Finset.Ico 0 n_preds,
      (_get_gradients gains preds n_preds groups query_boundaries n_queries
        discounts inverse_max_dcgs sigmoid_table n_sigmoid_bins min_sigmoid_arg
        max_sigmoid_arg sigmoid_idx_factor grad hess).grad k = 0 := by
  constructor
  · intro q hq
    have hq1 : query_boundaries (q + 1) ≤ query_boundaries n_queries :=
      hmono (q + 1) n_queries hq (le_refl _)
    simp only [_get_gradients]
    refine foldl_invariant
      (fun t => ∑ k in Finset.Ico (query_boundaries q) (query_boundaries (q + 1)),
        t.grad k = 0) _ _ _ ?_ ?_
    · refine Finset.sum_eq_zero ?_
      intro k hk
      rw [Finset.mem_Ico] at hk
      have hkn : k < n_preds := by omega
      simp [hkn]
    · intro s' i hi hP
      rw [List.mem_range] at hi
      by_cases hiq : i = q
      · exact (one_query_sum_grad gains preds (query_boundaries i)
          (query_boundaries (i + 1)) discounts (inverse_max_dcgs i) sigmoid_table
          n_sigmoid_bins min_sigmoid_arg max_sigmoid_arg sigmoid_idx_factor s'
          (Finset.Ico (query_boundaries q) (query_boundaries (q + 1)))
          (fun x hx1 hx2 =>
            Finset.mem_Ico.mpr ⟨hiq ▸ hx1, hiq ▸ hx2⟩)).trans hP
      · have hkf : ∀ k ∈ Finset.Ico (query_boundaries q) (query_boundaries (q + 1)),
            (get_gradients_for_one_query gains preds (query_boundaries i)
              (query_boundaries (i + 1)) discounts (inverse_max_dcgs i)
              sigmoid_table n_sigmoid_bins min_sigmoid_arg max_sigmoid_arg
              sigmoid_idx_factor s').grad k = s'.grad k := by
          intro k hk
          rw [Finset.mem_Ico] at hk
          have hor : k < query_boundaries i ∨ query_boundaries (i + 1) ≤ k := by
            rcases Nat.lt_or_ge i q with h | h
            · right
              have := hmono (i + 1) q h (le_of_lt hq)
              omega
            · have hqi : q < i := lt_of_le_of_ne h (fun he => hiq he.symm)
              left
              have := hmono (q + 1) i hqi (le_of_lt hi)
              omega
          exact (one_query_frame gains preds (query_boundaries i)
            (query_boundaries (i + 1)) discounts (inverse_max_dcgs i)
            sigmoid_table n_sigmoid_bins min_sigmoid_arg max_sigmoid_arg
            sigmoid_idx_factor s' k hor).1
        exact (Finset.sum_congr rfl hkf).trans hP
  · simp only [_get_gradients]
    refine foldl_invariant
      (fun t => ∑ k in Finset.Ico 0 n_preds, t.grad k = 0) _ _ _ ?_ ?_
    · refine Finset.sum_eq_zero ?_
      intro k hk
      rw [Finset.mem_Ico] at hk
      simp [hk.2]
    · intro s' i hi hP
      rw [List.mem_range] at hi
      have h1 : query_boundaries (i + 1) ≤ query_boundaries n_queries :=
        hmono (i + 1) n_queries hi (le_refl _)
      exact (one_query_sum_grad gains preds (query_boundaries i)
        (query_boundaries (i + 1)) discounts (inverse_max_dcgs i) sigmoid_table
        n_sigmoid_bins min_sigmoid_arg max_sigmoid_arg sigmoid_idx_factor s'
        (Finset.Ico 0 n_preds)
        (fun x _ hx2 => Finset.mem_Ico.mpr ⟨Nat.zero_le x, by omega⟩)).trans hP

theorem grad_sums_zero_witness :
    (∀ q, q < 1 →
      ∑ k in Finset.Ico ((fun i => 2 * min i 1) q) ((fun i => 2 * min i 1) (q + 1)),
        (_get_gradients (fun d => (d : ℚ)) (fun _ => 0) 2 (fun _ => 2)
          (fun i => 2 * min i 1) 1 (fun _ => 1) (fun _ => 1) (fun _ => 1/2) 4
          (-2) 2 1 (fun _ => 0) (fun _ => 0)).grad k = 0) ∧
    ∑ k in Finset.Ico 0 2,
      (_get_gradients (fun d => (d : ℚ)) (fun _ => 0) 2 (fun _ => 2)
        (fun i => 2 * min i 1) 1 (fun _ => 1) (fun _ => 1) (fun _ => 1/2) 4
        (-2) 2 1 (fun _ => 0) (fun _ => 0)).grad k = 0 :=
  grad_sums_zero (fun d => (d : ℚ)) (fun _ => 0) 2 (fun _ => 2)
    (fun i => 2 * min i 1) 1 (fun _ => 1) (fun _ => 1) (fun _ => 1/2) 4
    (-2) 2 1 (fun _ => 0) (fun _ => 0)
    (fun a b hab hb1 => by simp only []; omega) (by decide)

/-- Claim C1: in the gradient kernel's pair loop, for an ordered pair at
sorted positions `(i, j)` — `high = sorted_idx[i]` so `rank(high) = i`, and
`low = sorted_idx[j]` so `rank(low) = j` — with `label(high) > label(low)`,
the per-pair quantity `delta_ndcg` equals
`|Discount[rank(low)] - Discount[rank(high)]| * (gain(label(high)) -
gain(label(low))) * inverse_max_dcg`, divided by `(0.01 + |delta_score|)`
exactly when `should_adjust` holds; the pair's contribution is accumulated
as `grad[high] += lambda`, `grad[low] -= lambda`, `hess[high] += hess_term`,
`hess[low] += hess_term` with `lambda = -p * delta_ndcg` and
`hess_term = p * (2 - p) * 2 * delta_ndcg`, every other entry unchanged.
The kernel's `gains` array holds the gain transform of each label
(`gain_fn`, strictly increasing — 2^label - 1 in the spec); the
calculator's `discounts` array holds the spec's rank-indexed
`Discount[r]` at offset `1 + r` (`moltr/calculator.py` is not under
`src/`; this is the layout under which the kernel's `discounts[1 + rank]`
reads are the spec's `Discount[rank]`). -/
theorem pair_contribution (gains preds label : ℕ → ℚ) (gain_fn : ℚ → ℚ)
    (Discount discounts : ℕ → ℚ) (start : ℕ) (sorted_idx : List ℕ)
    (inverse_max_dcg : ℚ) (sigmoid_table : ℤ → ℚ) (n_sigmoid_bins : ℕ)
    (min_sigmoid_arg max_sigmoid_arg sigmoid_idx_factor : ℚ)
    (should_adjust : Bool) (s : GH) (i j : ℕ) (p delta_ndcg : ℚ)
    (hmono : StrictMono gain_fn)
    (hg : ∀ d, gains d = gain_fn (label d))
    (hD : ∀ r, discounts (1 + r) = Discount r)
    (hlabel : label (start + sorted_idx.getD j 0) <
      label (start + sorted_idx.getD i 0))
    (hp : p = get_sigmoid
      (preds (start + sorted_idx.getD i 0) - preds (start + sorted_idx.getD j 0))
      sigmoid_table n_sigmoid_bins min_sigmoid_arg max_sigmoid_arg
      sigmoid_idx_factor)
    (hdn : delta_ndcg =
      (if should_adjust then
        |Discount j - Discount i| *
          (gain_fn (label (start + sorted_idx.getD i 0)) -
            gain_fn (label (start + sorted_idx.getD j 0))) * inverse_max_dcg /
          (1 / 100 + |preds (start + sorted_idx.getD i 0) -
            preds (start + sorted_idx.getD j 0)|)
      else
        |Discount j - Discount i| *
          (gain_fn (label (start + sorted_idx.getD i 0)) -
            gain_fn (label (start + sorted_idx.getD j 0))) *
          inverse_max_dcg)) :
    (pairStep gains preds start sorted_idx discounts inverse_max_dcg
        sigmoid_table n_sigmoid_bins min_sigmoid_arg max_sigmoid_arg
        sigmoid_idx_factor should_adjust s (i, j)).grad
        (start + sorted_idx.getD i 0) =
      s.grad (start + sorted_idx.getD i 0) + (-p * delta_ndcg) ∧
    (pairStep gains preds start sorted_idx discounts inverse_max_dcg
        sigmoid_table n_sigmoid_bins min_sigmoid_arg max_sigmoid_arg
        sigmoid_idx_factor should_adjust s (i, j)).grad
        (start + sorted_idx.getD j 0) =
      s.grad (start + sorted_idx.getD j 0) - (-p * delta_ndcg) ∧
    (pairStep gains preds start sorted_idx discounts inverse_max_dcg
        sigmoid_table n_sigmoid_bins min_sigmoid_arg max_sigmoid_arg
        sigmoid_idx_factor should_adjust s (i, j)).hess
        (start + sorted_idx.getD i 0) =
      s.hess (start + sorted_idx.getD i 0) + p * (2 - p) * 2 * delta_ndcg ∧
    (pairStep gains preds start sorted_idx discounts inverse_max_dcg
        sigmoid_table n_sigmoid_bins min_sigmoid_arg max_sigmoid_arg
        sigmoid_idx_factor should_adjust s (i, j)).hess
        (start + sorted_idx.getD j 0) =
      s.hess (start + sorted_idx.getD j 0) + p * (2 - p) * 2 * delta_ndcg ∧
    (∀ k, k ≠ start + sorted_idx.getD i 0 → k ≠ start + sorted_idx.getD j 0 →
      (pairStep gains preds start sorted_idx discounts inverse_max_dcg
        sigmoid_table n_sigmoid_bins min_sigmoid_arg max_sigmoid_arg
        sigmoid_idx_factor should_adjust s (i, j)).grad k = s.grad k ∧
      (pairStep gains preds start sorted_idx discounts inverse_max_dcg
        sigmoid_table n_sigmoid_bins min_sigmoid_arg max_sigmoid_arg
        sigmoid_idx_factor should_adjust s (i, j)).hess k = s.hess k) := by
  subst hp
  subst hdn
  have hne2 : start + sorted_idx.getD j 0 ≠ start + sorted_idx.getD i 0 :=
    fun h => lt_irrefl _ (h ▸ hlabel)
  have hne1 : start + sorted_idx.getD i 0 ≠ start + sorted_idx.getD j 0 :=
    Ne.symm hne2
  have hc : gains (start + sorted_idx.getD (i, j).1 0) >
      gains (start + sorted_idx.getD (i, j).2 0) := by
    rw [hg (start + sorted_idx.getD (i, j).1 0),
      hg (start + sorted_idx.getD (i, j).2 0)]
    exact hmono hlabel
  have hlam : get_sigmoid
        (preds (start + sorted_idx.getD i 0) - preds (start + sorted_idx.getD j 0))
        sigmoid_table n_sigmoid_bins min_sigmoid_arg max_sigmoid_arg
        sigmoid_idx_factor *
      -(if should_adjust = true then
          (gains (start + sorted_idx.getD i 0) - gains (start + sorted_idx.getD j 0)) *
            |discounts (1 + j) - discounts (1 + i)| * inverse_max_dcg /
            (1 / 100 + |preds (start + sorted_idx.getD i 0) -
              preds (start + sorted_idx.getD j 0)|)
        else
          (gains (start + sorted_idx.getD i 0) - gains (start + sorted_idx.getD j 0)) *
            |discounts (1 + j) - discounts (1 + i)| * inverse_max_dcg) =
      -(get_sigmoid
        (preds (start + sorted_idx.getD i 0) - preds (start + sorted_idx.getD j 0))
        sigmoid_table n_sigmoid_bins min_sigmoid_arg max_sigmoid_arg
        sigmoid_idx_factor) *
      (if should_adjust = true then
        |Discount j - Discount i| *
          (gain_fn (label (start + sorted_idx.getD i 0)) -
            gain_fn (label (start + sorted_idx.getD j 0))) * inverse_max_dcg /
          (1 / 100 + |preds (start + sorted_idx.getD i 0) -
            preds (start + sorted_idx.getD j 0)|)
      else
        |Discount j - Discount i| *
          (gain_fn (label (start + sorted_idx.getD i 0)) -
            gain_fn (label (start + sorted_idx.getD j 0))) * inverse_max_dcg) := by
    rw [hg (start + sorted_idx.getD i 0), hg (start + sorted_idx.getD j 0),
      hD j, hD i]
    cases should_adjust
    · simp only [Bool.false_eq_true, if_false]
      ring
    · simp only [if_true]
      ring
  have hph : get_sigmoid
        (preds (start + sorted_idx.getD i 0) - preds (start + sorted_idx.getD j 0))
        sigmoid_table n_sigmoid_bins min_sigmoid_arg max_sigmoid_arg
        sigmoid_idx_factor *
      (2 - get_sigmoid
        (preds (start + sorted_idx.getD i 0) - preds (start + sorted_idx.getD j 0))
        sigmoid_table n_sigmoid_bins min_sigmoid_arg max_sigmoid_arg
        sigmoid_idx_factor) *
      (2 * (if should_adjust = true then
          (gains (start + sorted_idx.getD i 0) - gains (start + sorted_idx.getD j 0)) *
            |discounts (1 + j) - discounts (1 + i)| * inverse_max_dcg /
            (1 / 100 + |preds (start + sorted_idx.getD i 0) -
              preds (start + sorted_idx.getD j 0)|)
        else
          (gains (start + sorted_idx.getD i 0) - gains (start + sorted_idx.getD j 0)) *
            |discounts (1 + j) - discounts (1 + i)| * inverse_max_dcg)) =
      get_sigmoid
        (preds (start + sorted_idx.getD i 0) - preds (start + sorted_idx.getD j 0))
        sigmoid_table n_sigmoid_bins min_sigmoid_arg max_sigmoid_arg
        sigmoid_idx_factor *
      (2 - get_sigmoid
        (preds (start + sorted_idx.getD i 0) - preds (start + sorted_idx.getD j 0))
        sigmoid_table n_sigmoid_bins min_sigmoid_arg max_sigmoid_arg
        sigmoid_idx_factor) * 2 *
      (if should_adjust = true then
        |Discount j - Discount i| *
          (gain_fn (label (start + sorted_idx.getD i 0)) -
            gain_fn (label (start + sorted_idx.getD j 0))) * inverse_max_dcg /
          (1 / 100 + |preds (start + sorted_idx.getD i 0) -
            preds (start + sorted_idx.getD j 0)|)
      else
        |Discount j - Discount i| *
          (gain_fn (label (start + sorted_idx.getD i 0)) -
            gain_fn (label (start + sorted_idx.getD j 0))) * inverse_max_dcg) := by
    rw [hg (start + sorted_idx.getD i 0), hg (start + sorted_idx.getD j 0),
      hD j, hD i]
    cases should_adjust
    · simp only [Bool.false_eq_true, if_false]
      ring
    · simp only [if_true]
      ring
  refine ⟨?_, ?_, ?_, ?_, ?_⟩
  · simp only [pairStep]
    rw [if_pos hc]
    exact (double_update_fst s.grad _ _ hne1 _ _).trans (by rw [hlam])
  · simp only [pairStep]
    rw [if_pos hc]
    exact (double_update_snd s.grad _ _ _ _).trans
      (by rw [Function.update_noteq hne2, hlam])
  · simp only [pairStep]
    rw [if_pos hc]
    exact (double_update_fst s.hess _ _ hne1 _ _).trans (by rw [hph])
  · simp only [pairStep]
    rw [if_pos hc]
    exact (double_update_snd s.hess _ _ _ _).trans
      (by rw [Function.update_noteq hne2, hph])
  · intro k hk1 hk2
    exact pairStep_frame gains preds start sorted_idx discounts inverse_max_dcg
      sigmoid_table n_sigmoid_bins min_sigmoid_arg max_sigmoid_arg
      sigmoid_idx_factor should_adjust s (i, j) k hk1 hk2

theorem pair_contribution_witness :
    (pairStep (fun d => (d : ℚ)) (fun _ => 0) 0 [0, 1] (fun r => (r : ℚ)) 1
        (fun _ => 1/2) 4 (-2) 2 1 false ⟨fun _ => 0, fun _ => 0⟩ (1, 0)).grad 1 =
      -(1/2) := by
  have h := (pair_contribution (fun d => (d : ℚ)) (fun _ => 0) (fun d => (d : ℚ))
      id (fun r => ((1 + r : ℕ) : ℚ)) (fun r => (r : ℚ)) 0 [0, 1] 1
      (fun _ => 1/2) 4 (-2) 2 1 false ⟨fun _ => 0, fun _ => 0⟩ 1 0 _ _
      strictMono_id (fun _ => rfl) (fun _ => rfl) (by norm_num) rfl rfl).1
  norm_num [List.getD, get_sigmoid, truncToInt] at h
  linarith [h]

theorem getD_map_range (f : ℕ → ℚ) {n k : ℕ} (h : k < n) :
    ((List.range n).map f).getD k 0 = f k := by
  rw [List.getD_eq_getElem _ 0 (by simpa using h)]
  simp

theorem getD_zipWith (f : ℚ → ℚ → ℚ) :
    ∀ (a b : List ℚ) (k : ℕ), k < a.length → k < b.length →
      (List.zipWith f a b).getD k 0 = f (a.getD k 0) (b.getD k 0)
  | [], _, _, h, _ => absurd h (by simp)
  | _ :: _, [], _, _, h => absurd h (by simp)
  | _ :: _, _ :: _, 0, _, _ => rfl
  | _ :: xs, _ :: ys, (k + 1), h1, h2 => by
    simp only [List.zipWith_cons_cons, List.getD_cons_succ]
    exact getD_zipWith f xs ys k (by simpa using h1) (by simpa using h2)

theorem get_grad_hess_length (labels preds : List ℚ) (groups : List ℤ)
    (c : Calculator) (min_sigmoid_arg max_sigmoid_arg : ℚ) :
    (get_grad_hess labels preds groups c min_sigmoid_arg max_sigmoid_arg).1.length
      = preds.length ∧
    (get_grad_hess labels preds groups c min_sigmoid_arg max_sigmoid_arg).2.length
      = preds.length := by
  constructor
  · simp [get_grad_hess]
  · simp [get_grad_hess]

/-- Claim C3 (amended): the objective callback fails with the invalid-input
error exactly when the group sequence is empty, and that error value
reaches the caller unmodified; on every other input it returns the
gradient and Hessian arrays computed by the kernel — no check that the
group sizes sum to the prediction length is performed. -/
theorem lambdamart_objective_spec (preds : List ℚ) (ds : DatasetWithCalculator)
    (min_sigmoid_arg max_sigmoid_arg : ℚ) :
    (ds.groups = [] →
      lambdamart_objective preds ds min_sigmoid_arg max_sigmoid_arg =
        Except.error ("Group/query data should not be empty.")) ∧
    (ds.groups ≠ [] →
      lambdamart_objective preds ds min_sigmoid_arg max_sigmoid_arg =
        Except.ok (get_grad_hess ds.label preds ds.groups ds.calculator
          min_sigmoid_arg max_sigmoid_arg)) := by
  constructor
  · intro h
    unfold lambdamart_objective
    rw [if_pos (by rw [h]; rfl)]
  · intro h
    unfold lambdamart_objective
    rw [if_neg (by rw [List.length_eq_zero]; exact h)]

theorem lambdamart_objective_spec_witness :
    lambdamart_objective [(0 : ℚ), 0]
        ⟨[0, 0], [2], ⟨[0, 2], fun _ => 1, fun _ => 1, [1/2], 1⟩⟩ (-2) 2 =
      Except.ok (get_grad_hess [0, 0] [(0 : ℚ), 0] [2]
        ⟨[0, 2], fun _ => 1, fun _ => 1, [1/2], 1⟩ (-2) 2) :=
  (lambdamart_objective_spec [(0 : ℚ), 0]
    ⟨[0, 0], [2], ⟨[0, 2], fun _ => 1, fun _ => 1, [1/2], 1⟩⟩ (-2) 2).2
    (by decide)

/-- Claim C3 counterexample: the group sizes sum to 2 while the prediction
array has length 1, yet the objective callback does not fail — it returns
a result, because no size-consistency check exists in the code. -/
theorem lambdamart_objective_no_size_check :
    ([2] : List ℤ).sum = 2 ∧ [(0 : ℚ)].length = 1 ∧
      Except.isOk (lambdamart_objective [(0 : ℚ)]
        ⟨[0, 0], [2], ⟨[0, 2], fun _ => 1, fun _ => 1, [1/2], 1⟩⟩ (-2) 2)
        = true :=
  ⟨rfl, rfl, rfl⟩

/-- Claim C7: for every predictions array, pair of label arrays, and alpha
in [0, 1] (with the non-empty group structure the callback requires), the
combined objective returns exactly `alpha * grad1 + (1 - alpha) * grad2`
and `alpha * hess1 + (1 - alpha) * hess2` elementwise, where
`(grad1, hess1)` and `(grad2, hess2)` are the single-objective gradient
computations performed independently on the same predictions with each
label set's own calculator. -/
theorem combined_objective_blend (preds : List ℚ) (ds : DatasetWithTwoLabels)
    (min_sigmoid_arg max_sigmoid_arg : ℚ)
    (h0 : 0 ≤ ds.alpha) (h1 : ds.alpha ≤ 1) (hne : ds.groups ≠ []) :
    combined_objective preds ds min_sigmoid_arg max_sigmoid_arg =
      Except.ok
        (List.zipWith (fun a b => ds.alpha * a + (1 - ds.alpha) * b)
          (get_grad_hess ds.label_1 preds ds.groups ds.calculator_1
            min_sigmoid_arg max_sigmoid_arg).1
          (get_grad_hess ds.label_2 preds ds.groups ds.calculator_2
            min_sigmoid_arg max_sigmoid_arg).1,
         List.zipWith (fun a b => ds.alpha * a + (1 - ds.alpha) * b)
          (get_grad_hess ds.label_1 preds ds.groups ds.calculator_1
            min_sigmoid_arg max_sigmoid_arg).2
          (get_grad_hess ds.label_2 preds ds.groups ds.calculator_2
            min_sigmoid_arg max_sigmoid_arg).2) ∧
    (List.zipWith (fun a b => ds.alpha * a + (1 - ds.alpha) * b)
      (get_grad_hess ds.label_1 preds ds.groups ds.calculator_1
        min_sigmoid_arg max_sigmoid_arg).1
      (get_grad_hess ds.label_2 preds ds.groups ds.calculator_2
        min_sigmoid_arg max_sigmoid_arg).1).length = preds.length ∧
    (∀ k, k < preds.length →
      (List.zipWith (fun a b => ds.alpha * a + (1 - ds.alpha) * b)
        (get_grad_hess ds.label_1 preds ds.groups ds.calculator_1
          min_sigmoid_arg max_sigmoid_arg).1
        (get_grad_hess ds.label_2 preds ds.groups ds.calculator_2
          min_sigmoid_arg max_sigmoid_arg).1).getD k 0 =
        ds.alpha * (get_grad_hess ds.label_1 preds ds.groups ds.calculator_1
          min_sigmoid_arg max_sigmoid_arg).1.getD k 0 +
        (1 - ds.alpha) * (get_grad_hess ds.label_2 preds ds.groups
          ds.calculator_2 min_sigmoid_arg max_sigmoid_arg).1.getD k 0 ∧
      (List.zipWith (fun a b => ds.alpha * a + (1 - ds.alpha) * b)
        (get_grad_hess ds.label_1 preds ds.groups ds.calculator_1
          min_sigmoid_arg max_sigmoid_arg).2
        (get_grad_hess ds.label_2 preds ds.groups ds.calculator_2
          min_sigmoid_arg max_sigmoid_arg).2).getD k 0 =
        ds.alpha * (get_grad_hess ds.label_1 preds ds.groups ds.calculator_1
          min_sigmoid_arg max_sigmoid_arg).2.getD k 0 +
        (1 - ds.alpha) * (get_grad_hess ds.label_2 preds ds.groups
          ds.calculator_2 min_sigmoid_arg max_sigmoid_arg).2.getD k 0) := by
  have hl1 := get_grad_hess_length ds.label_1 preds ds.groups ds.calculator_1
    min_sigmoid_arg max_sigmoid_arg
  have hl2 := get_grad_hess_length ds.label_2 preds ds.groups ds.calculator_2
    min_sigmoid_arg max_sigmoid_arg
  refine ⟨?_, ?_, ?_⟩
  · unfold combined_objective
    rw [if_neg (by rw [List.length_eq_zero]; exact hne)]
  · rw [List.length_zipWith, hl1.1, hl2.1, min_self]
  · intro k hk
    constructor
    · exact getD_zipWith (fun a b => ds.alpha * a + (1 - ds.alpha) * b) _ _ k
        (by rw [hl1.1]; exact hk) (by rw [hl2.1]; exact hk)
    · exact getD_zipWith (fun a b => ds.alpha * a + (1 - ds.alpha) * b) _ _ k
        (by rw [hl1.2]; exact hk) (by rw [hl2.2]; exact hk)

theorem combined_objective_blend_witness :
    combined_objective [(0 : ℚ), 0]
        ⟨[1, 0], [0, 1], [2], ⟨[0, 2], fun _ => 1, fun _ => 1, [1/2], 1⟩,
          ⟨[0, 2], fun _ => 1, fun _ => 1, [1/2], 1⟩, 1/2⟩ (-2) 2 =
      Except.ok
        (List.zipWith (fun a b => (1/2 : ℚ) * a + (1 - 1/2) * b)
          (get_grad_hess [1, 0] [(0 : ℚ), 0] [2]
            ⟨[0, 2], fun _ => 1, fun _ => 1, [1/2], 1⟩ (-2) 2).1
          (get_grad_hess [0, 1] [(0 : ℚ), 0] [2]
            ⟨[0, 2], fun _ => 1, fun _ => 1, [1/2], 1⟩ (-2) 2).1,
         List.zipWith (fun a b => (1/2 : ℚ) * a + (1 - 1/2) * b)
          (get_grad_hess [1, 0] [(0 : ℚ), 0] [2]
            ⟨[0, 2], fun _ => 1, fun _ => 1, [1/2], 1⟩ (-2) 2).2
          (get_grad_hess [0, 1] [(0 : ℚ), 0] [2]
            ⟨[0, 2], fun _ => 1, fun _ => 1, [1/2], 1⟩ (-2) 2).2) :=
  (combined_objective_blend [(0 : ℚ), 0]
    ⟨[1, 0], [0, 1], [2], ⟨[0, 2], fun _ => 1, fun _ => 1, [1/2], 1⟩,
      ⟨[0, 2], fun _ => 1, fun _ => 1, [1/2], 1⟩, 1/2⟩ (-2) 2
    (by norm_num) (by norm_num) (by decide)).1

end Moltr
